import Mathlib

/-!
Verification of `gantt_diagram/visualize_schedule.py`.

The parser `parse_output` reads a scheduler log line by line and accumulates a
trace dictionary.  We embed the parser shallowly: each Python regex search is
modelled by an executable function on `List Char` implementing the leftmost
`re.search` semantics of that concrete pattern, and the line loop becomes a
left fold of a pure step function over the list of lines.
-/

/-- Characters matched by Python's regex class `\s` (ASCII part). -/
def isPySpace (c : Char) : Bool :=
  c = ' ' || c = '\t' || c = '\n' || c = '\r' || c = '\x0b' || c = '\x0c'

/-- Value of a digit run, most significant first, as Python `int` would read it. -/
def natOfDigits (ds : List Char) : Nat :=
  ds.foldl (fun a c => 10 * a + (c.toNat - 48)) 0

/-- Whether `key` occurs verbatim at the head of `s`. -/
def startsWithChars : List Char → List Char → Bool
  | [], _ => true
  | _ :: _, [] => false
  | k :: ks, c :: cs => k == c && startsWithChars ks cs

/-- Leftmost `re.search` of a pattern of shape `\s*KEY\s*(\d+)` (as in
`running_pattern`, `waiting_pattern`, `ready_pattern` of the source): find
the first occurrence of `key` that is followed, after optional whitespace,
by at least one digit, and return the value of the maximal digit run.
The leading `\s*` of the Python pattern never changes the captured group,
so it is dropped here. -/
def searchKeyPid (key : List Char) : List Char → Option Int
  | [] => none
  | c :: rest =>
      if startsWithChars key (c :: rest) then
        let after := (c :: rest).drop key.length
        let afterWs := after.dropWhile isPySpace
        let ds := afterWs.takeWhile Char.isDigit
        if ds.isEmpty then searchKeyPid key rest
        else some (Int.ofNat (natOfDigits ds))
      else searchKeyPid key rest

/-- The literal ` TIME: ` that follows the star run in `time_pattern`. -/
def timeKey : List Char := [' ', 'T', 'I', 'M', 'E', ':', ' ']

/-- Leftmost `re.search` of `time_pattern = \*+ TIME: (\d+) \*+`: a run of one
or more stars, the literal ` TIME: `, a digit run (captured), a space, and at
least one star.  Greedy `\*+` and `\d+` admit no useful backtracking because
the characters that must follow them are neither stars nor digits. -/
def searchTime : List Char → Option Nat
  | [] => none
  | c :: rest =>
      if c = '*' then
        let afterStars := rest.dropWhile (fun x => x = '*')
        if startsWithChars timeKey afterStars then
          let afterKey := afterStars.drop 7
          let ds := afterKey.takeWhile Char.isDigit
          if ds.isEmpty then searchTime rest
          else
            match afterKey.dropWhile Char.isDigit with
            | ' ' :: c2 :: _ => if c2 = '*' then some (natOfDigits ds) else searchTime rest
            | _ => searchTime rest
        else searchTime rest
      else searchTime rest

/-- `running_pattern = \s*running pid:\s*(\d+)`. -/
def runningKey : List Char := String.toList "running pid:"

/-- `waiting_pattern = \s*waiting pid:\s*(\d+)`. -/
def waitingKey : List Char := String.toList "waiting pid:"

/-- `ready_pattern = \s*ready pid:\s*(\d+)`. -/
def readyKey : List Char := String.toList "ready pid:"

/-- The `data` dictionary of `parse_output` together with the loop-local
variables `current_time`, `current_running`, `current_waiting`,
`current_ready`.  The Python dicts keep insertion order, so they are
association lists here; `data['pids']` is a Python `set`, a `Finset`. -/
structure ParseData where
  cpu : List (Int × List Nat)
  io : List (Int × List Nat)
  ready : List (Nat × List Int)
  events : List (Nat × List String)
  max_time : Nat
  pids : Finset Int
  current_time : Nat
  current_running : Int
  current_waiting : List Int
  current_ready : List Int
deriving DecidableEq

/-- The state at the top of `parse_output`, before the loop. -/
def initData : ParseData :=
  { cpu := [], io := [], ready := [], events := [], max_time := 0, pids := ∅,
    current_time := 0, current_running := -1, current_waiting := [], current_ready := [] }

/-- `if pid not in d: d[pid] = []` followed by `d[pid].append(t)`: append `t`
to the list at key `pid`, creating the key at the end if absent (Python dict
insertion order). -/
def addTick (d : List (Int × List Nat)) (pid : Int) (t : Nat) : List (Int × List Nat) :=
  match d with
  | [] => [(pid, [t])]
  | (p, ts) :: rest => if p = pid then (p, ts ++ [t]) :: rest else (p, ts) :: addTick rest pid t

/-- One iteration of the `for line in lines` loop of `parse_output`.  The four
regex searches are tried in source order, each hit ending the iteration as the
`continue` statements do.  A line matching none of them reaches the trailing
`if ready_match:` block of the source with `ready_match = None`, so it leaves
the state untouched. -/
def processLine (st : ParseData) (line : String) : ParseData :=
  match searchTime line.toList with
  | some t =>
      { st with current_time := t, max_time := max st.max_time t,
                current_waiting := [], current_ready := [], current_running := -1 }
  | none =>
    match searchKeyPid runningKey line.toList with
    | some pid =>
        if pid ≠ -1 then
          { st with current_running := pid, pids := insert pid st.pids,
                    cpu := addTick st.cpu pid st.current_time }
        else st
    | none =>
      match searchKeyPid waitingKey line.toList with
      | some pid =>
          { st with current_waiting := st.current_waiting ++ [pid],
                    pids := insert pid st.pids,
                    io := addTick st.io pid st.current_time }
      | none =>
        match searchKeyPid readyKey line.toList with
        | some pid =>
            { st with current_ready := st.current_ready ++ [pid],
                      pids := insert pid st.pids }
        | none => st

/-- `parse_output` on the list of lines of the input file. -/
def parse_output (lines : List String) : ParseData :=
  lines.foldl processLine initData

/-- Observable behaviour of `draw_gantt`: the guard `if not pids` at its top
either prints the diagnostic and returns before any plotting, or the drawing
runs to `plt.savefig(output_file)` and the confirmation line.  The result is
the list of printed lines and the file written, if any. -/
def draw_gantt (data : ParseData) (output_file : String) : List String × Option String :=
  if data.pids = ∅ then (["No processes found."], none)
  else (["Gantt chart saved to " ++ output_file], some output_file)

/-- Membership of a tick `t` in the list stored under key `p`. -/
def dictMem (d : List (Int × List Nat)) (p : Int) (t : Nat) : Prop :=
  ∃ ts, (p, ts) ∈ d ∧ t ∈ ts

theorem searchKeyPid_nonneg (key : List Char) (cs : List Char) (p : Int)
    (h : searchKeyPid key cs = some p) : 0 ≤ p := by
  induction cs with
  | nil => simp [searchKeyPid] at h
  | cons c rest ih =>
      rw [searchKeyPid] at h
      dsimp only at h
      split at h
      · split at h
        · exact ih h
        · simp only [Option.some.injEq] at h
          rw [← h]
          exact Int.ofNat_nonneg _
      · exact ih h

theorem processLine_ready (st : ParseData) (l : String) :
    (processLine st l).ready = st.ready := by
  unfold processLine
  split
  · rfl
  · split
    · split <;> rfl
    · split
      · rfl
      · split <;> rfl

theorem processLine_events (st : ParseData) (l : String) :
    (processLine st l).events = st.events := by
  unfold processLine
  split
  · rfl
  · split
    · split <;> rfl
    · split
      · rfl
      · split <;> rfl

theorem processLine_pids_mono (st : ParseData) (l : String) :
    st.pids ⊆ (processLine st l).pids := by
  unfold processLine
  split
  · exact Finset.Subset.refl _
  · split
    · split
      · exact Finset.subset_insert _ _
      · exact Finset.Subset.refl _
    · split
      · exact Finset.subset_insert _ _
      · split
        · exact Finset.subset_insert _ _
        · exact Finset.Subset.refl _

/-- Presence of key `p` in the dictionary. -/
def keyMem (d : List (Int × List Nat)) (p : Int) : Prop :=
  ∃ ts, (p, ts) ∈ d

theorem processLine_char (st : ParseData) (l : String) :
    (∃ t, searchTime l.toList = some t ∧
      processLine st l =
        { st with
          current_time := t, max_time := max st.max_time t,
          current_waiting := [], current_ready := [], current_running := -1 }) ∨
    (∃ pid, searchKeyPid runningKey l.toList = some pid ∧
      processLine st l =
        { st with
          current_running := pid, pids := insert pid st.pids,
          cpu := addTick st.cpu pid st.current_time }) ∨
    (∃ pid, searchKeyPid waitingKey l.toList = some pid ∧
      processLine st l =
        { st with
          current_waiting := st.current_waiting ++ [pid],
          pids := insert pid st.pids,
          io := addTick st.io pid st.current_time }) ∨
    (∃ pid, searchKeyPid readyKey l.toList = some pid ∧
      processLine st l =
        { st with
          current_ready := st.current_ready ++ [pid],
          pids := insert pid st.pids }) ∨
    processLine st l = st := by
  unfold processLine
  split
  next t heq => exact Or.inl ⟨t, heq, rfl⟩
  next heq1 =>
    split
    next pid heq2 =>
      split
      next hne => exact Or.inr (Or.inl ⟨pid, heq2, rfl⟩)
      next hne => exact Or.inr (Or.inr (Or.inr (Or.inr rfl)))
    next heq2 =>
      split
      next pid heq3 => exact Or.inr (Or.inr (Or.inl ⟨pid, heq3, rfl⟩))
      next heq3 =>
        split
        next pid heq4 => exact Or.inr (Or.inr (Or.inr (Or.inl ⟨pid, heq4, rfl⟩)))
        next heq4 => exact Or.inr (Or.inr (Or.inr (Or.inr rfl)))

theorem processLine_time_frame (st : ParseData) (l : String) (t : Nat)
    (h : searchTime l.toList = some t) :
    processLine st l =
      { st with
        current_time := t, max_time := max st.max_time t,
        current_waiting := [], current_ready := [], current_running := -1 } := by
  unfold processLine
  rw [h]

theorem processLine_no_match (st : ParseData) (l : String)
    (h1 : searchTime l.toList = none)
    (h2 : searchKeyPid runningKey l.toList = none)
    (h3 : searchKeyPid waitingKey l.toList = none)
    (h4 : searchKeyPid readyKey l.toList = none) :
    processLine st l = st := by
  unfold processLine
  rw [h1, h2, h3, h4]

theorem dictMem_addTick (d : List (Int × List Nat)) (p : Int) (t : Nat) (q : Int) (u : Nat)
    (h : dictMem d p t) : dictMem (addTick d q u) p t := by
  induction d with
  | nil => rcases h with ⟨ts, hmem, _⟩; cases hmem
  | cons a rest ih =>
      obtain ⟨b, ts⟩ := a
      rcases h with ⟨ts', hmem, ht⟩
      rcases List.mem_cons.mp hmem with hhd | htl
      · rw [Prod.mk.injEq] at hhd
        obtain ⟨hp, hts⟩ := hhd
        subst hp
        subst hts
        unfold addTick
        split
        next hb => exact ⟨ts' ++ [u], List.mem_cons_self _ _, List.mem_append_left _ ht⟩
        next hb => exact ⟨ts', List.mem_cons_self _ _, ht⟩
      · unfold addTick
        split
        next hb => exact ⟨ts', List.mem_cons_of_mem _ htl, ht⟩
        next hb =>
          rcases ih ⟨ts', htl, ht⟩ with ⟨ts2, hmem2, ht2⟩
          exact ⟨ts2, List.mem_cons_of_mem _ hmem2, ht2⟩

theorem dictMem_addTick_elim (d : List (Int × List Nat)) (p : Int) (t : Nat) (q : Int) (u : Nat)
    (h : dictMem (addTick d q u) p t) : dictMem d p t ∨ (p = q ∧ t = u) := by
  induction d with
  | nil =>
      rcases h with ⟨ts, hmem, ht⟩
      simp [addTick] at hmem
      rcases hmem with ⟨hp, hts⟩
      rw [hts] at ht
      simp at ht
      exact Or.inr ⟨hp, ht⟩
  | cons a rest ih =>
      obtain ⟨b, ts⟩ := a
      unfold addTick at h
      split at h
      next hb =>
        subst hb
        rcases h with ⟨ts', hmem, ht⟩
        rcases List.mem_cons.mp hmem with hhd | htl
        · rw [Prod.mk.injEq] at hhd
          obtain ⟨hp, hts⟩ := hhd
          subst hp
          rw [hts] at ht
          rcases List.mem_append.mp ht with hin | hu
          · exact Or.inl ⟨ts, List.mem_cons_self _ _, hin⟩
          · simp at hu
            exact Or.inr ⟨rfl, hu⟩
        · exact Or.inl ⟨ts', List.mem_cons_of_mem _ htl, ht⟩
      next hb =>
        rcases h with ⟨ts', hmem, ht⟩
        rcases List.mem_cons.mp hmem with hhd | htl
        · rw [Prod.mk.injEq] at hhd
          obtain ⟨hp, hts⟩ := hhd
          subst hp
          subst hts
          exact Or.inl ⟨ts', List.mem_cons_self _ _, ht⟩
        · rcases ih ⟨ts', htl, ht⟩ with hmem2 | hpq
          · rcases hmem2 with ⟨ts2, hmem2, ht2⟩
            exact Or.inl ⟨ts2, List.mem_cons_of_mem _ hmem2, ht2⟩
          · exact Or.inr hpq

theorem keyMem_addTick_elim (d : List (Int × List Nat)) (q : Int) (u : Nat) (p : Int)
    (h : keyMem (addTick d q u) p) : keyMem d p ∨ p = q := by
  induction d with
  | nil =>
      rcases h with ⟨ts, hmem⟩
      simp [addTick] at hmem
      exact Or.inr hmem.1
  | cons a rest ih =>
      obtain ⟨b, ts⟩ := a
      unfold addTick at h
      split at h
      next hb =>
        subst hb
        rcases h with ⟨ts', hmem⟩
        rcases List.mem_cons.mp hmem with hhd | htl
        · rw [Prod.mk.injEq] at hhd
          exact Or.inr hhd.1
        · exact Or.inl ⟨ts', List.mem_cons_of_mem _ htl⟩
      next hb =>
        rcases h with ⟨ts', hmem⟩
        rcases List.mem_cons.mp hmem with hhd | htl
        · rw [Prod.mk.injEq] at hhd
          obtain ⟨hp, hts⟩ := hhd
          subst hp
          subst hts
          exact Or.inl ⟨ts', List.mem_cons_self _ _⟩
        · rcases ih ⟨ts', htl⟩ with h2 | h2
          · rcases h2 with ⟨ts2, hmem2⟩
            exact Or.inl ⟨ts2, List.mem_cons_of_mem _ hmem2⟩
          · exact Or.inr h2

theorem foldl_inv_all (P : ParseData → Prop) (Q : String → Prop)
    (hstep : ∀ st l, Q l → P st → P (processLine st l))
    (ls : List String) (st : ParseData)
    (hls : ∀ l ∈ ls, Q l) (h : P st) : P (ls.foldl processLine st) := by
  induction ls generalizing st with
  | nil => exact h
  | cons l ls ih =>
      exact ih _ (fun x hx => hls x (List.mem_cons_of_mem _ hx))
        (hstep st l (hls l (List.mem_cons_self _ _)) h)

theorem foldl_inv (P : ParseData → Prop)
    (hstep : ∀ st l, P st → P (processLine st l))
    (ls : List String) (st : ParseData) (h : P st) : P (ls.foldl processLine st) :=
  foldl_inv_all P (fun _ => True) (fun st l _ hp => hstep st l hp) ls st (fun _ _ => trivial) h

theorem foldl_ready (ls : List String) (st : ParseData) :
    (ls.foldl processLine st).ready = st.ready := by
  induction ls generalizing st with
  | nil => rfl
  | cons l ls ih => rw [List.foldl_cons, ih, processLine_ready]

theorem foldl_events (ls : List String) (st : ParseData) :
    (ls.foldl processLine st).events = st.events := by
  induction ls generalizing st with
  | nil => rfl
  | cons l ls ih => rw [List.foldl_cons, ih, processLine_events]

theorem processLine_dictMem_cpu (st : ParseData) (l : String) (p : Int) (t : Nat)
    (h : dictMem st.cpu p t) : dictMem (processLine st l).cpu p t := by
  rcases processLine_char st l with ⟨u, _, he⟩ | ⟨pid, _, he⟩ | ⟨pid, _, he⟩ | ⟨pid, _, he⟩ | he
  · rw [he]; exact h
  · rw [he]; exact dictMem_addTick _ _ _ _ _ h
  · rw [he]; exact h
  · rw [he]; exact h
  · rw [he]; exact h

theorem processLine_dictMem_io (st : ParseData) (l : String) (p : Int) (t : Nat)
    (h : dictMem st.io p t) : dictMem (processLine st l).io p t := by
  rcases processLine_char st l with ⟨u, _, he⟩ | ⟨pid, _, he⟩ | ⟨pid, _, he⟩ | ⟨pid, _, he⟩ | he
  · rw [he]; exact h
  · rw [he]; exact h
  · rw [he]; exact dictMem_addTick _ _ _ _ _ h
  · rw [he]; exact h
  · rw [he]; exact h

theorem foldl_dictMem_cpu (ls : List String) (st : ParseData) (p : Int) (t : Nat)
    (h : dictMem st.cpu p t) : dictMem (ls.foldl processLine st).cpu p t := by
  induction ls generalizing st with
  | nil => exact h
  | cons l ls ih => exact ih _ (processLine_dictMem_cpu _ _ _ _ h)

theorem foldl_dictMem_io (ls : List String) (st : ParseData) (p : Int) (t : Nat)
    (h : dictMem st.io p t) : dictMem (ls.foldl processLine st).io p t := by
  induction ls generalizing st with
  | nil => exact h
  | cons l ls ih => exact ih _ (processLine_dictMem_io _ _ _ _ h)

theorem processLine_max_time_of_none (st : ParseData) (l : String)
    (h : searchTime l.toList = none) :
    (processLine st l).max_time = st.max_time ∧
    (processLine st l).current_time = st.current_time := by
  rcases processLine_char st l with ⟨u, hu, he⟩ | ⟨pid, _, he⟩ | ⟨pid, _, he⟩ | ⟨pid, _, he⟩ | he
  · rw [h] at hu; cases hu
  · rw [he]; exact ⟨rfl, rfl⟩
  · rw [he]; exact ⟨rfl, rfl⟩
  · rw [he]; exact ⟨rfl, rfl⟩
  · rw [he]; exact ⟨rfl, rfl⟩

theorem foldl_max_time (ls : List String) (st : ParseData) :
    (ls.foldl processLine st).max_time =
      List.foldl max st.max_time (ls.filterMap fun l => searchTime l.toList) := by
  induction ls generalizing st with
  | nil => rfl
  | cons l ls ih =>
      rw [List.foldl_cons, ih]
      cases h : searchTime l.toList with
      | some t =>
          simp only [List.filterMap_cons, h, List.foldl_cons]
          rw [processLine_time_frame st l t h]
      | none =>
          simp only [List.filterMap_cons, h]
          rw [(processLine_max_time_of_none st l h).1]

/-- Closure invariant: every key of `cpu` and `io` is in `pids` (C4), every
pid in `pids` is non-negative (C6), and every recorded tick is bounded by
`max_time`, as is `current_time` (C9). -/
def StateInv (st : ParseData) : Prop :=
  (∀ p, keyMem st.cpu p → p ∈ st.pids) ∧
  (∀ p, keyMem st.io p → p ∈ st.pids) ∧
  (∀ p ∈ st.pids, 0 ≤ p) ∧
  st.current_time ≤ st.max_time ∧
  (∀ p t, dictMem st.cpu p t → t ≤ st.max_time) ∧
  (∀ p t, dictMem st.io p t → t ≤ st.max_time)

theorem keyMem_addTick_cases (d : List (Int × List Nat)) (q : Int) (u : Nat) (p : Int)
    (h : keyMem (addTick d q u) p) : keyMem d p ∨ p = q :=
  keyMem_addTick_elim d q u p h

theorem stateInv_processLine (st : ParseData) (l : String)
    (h : StateInv st) : StateInv (processLine st l) := by
  obtain ⟨hc, hi, hn, hct, hcm, him⟩ := h
  rcases processLine_char st l with ⟨t, ht, he⟩ | ⟨pid, hp, he⟩ | ⟨pid, hp, he⟩ | ⟨pid, hp, he⟩ | he
  · rw [he]
    refine ⟨hc, hi, hn, le_max_right _ _, ?_, ?_⟩
    · exact fun p t2 hm => le_trans (hcm p t2 hm) (le_max_left _ _)
    · exact fun p t2 hm => le_trans (him p t2 hm) (le_max_left _ _)
  · rw [he]
    refine ⟨?_, ?_, ?_, hct, ?_, him⟩
    · intro p hk
      rcases keyMem_addTick_elim _ _ _ _ hk with hk2 | hk2
      · exact Finset.mem_insert_of_mem (hc p hk2)
      · rw [hk2]; exact Finset.mem_insert_self _ _
    · exact fun p hk => Finset.mem_insert_of_mem (hi p hk)
    · intro p hmem
      rcases Finset.mem_insert.mp hmem with hp2 | hp2
      · rw [hp2]; exact searchKeyPid_nonneg _ _ _ hp
      · exact hn p hp2
    · intro p t2 hm
      rcases dictMem_addTick_elim _ _ _ _ _ hm with hm2 | hm2
      · exact hcm p t2 hm2
      · rw [hm2.2]; exact hct
  · rw [he]
    refine ⟨?_, ?_, ?_, hct, hcm, ?_⟩
    · exact fun p hk => Finset.mem_insert_of_mem (hc p hk)
    · intro p hk
      rcases keyMem_addTick_elim _ _ _ _ hk with hk2 | hk2
      · exact Finset.mem_insert_of_mem (hi p hk2)
      · rw [hk2]; exact Finset.mem_insert_self _ _
    · intro p hmem
      rcases Finset.mem_insert.mp hmem with hp2 | hp2
      · rw [hp2]; exact searchKeyPid_nonneg _ _ _ hp
      · exact hn p hp2
    · intro p t2 hm
      rcases dictMem_addTick_elim _ _ _ _ _ hm with hm2 | hm2
      · exact him p t2 hm2
      · rw [hm2.2]; exact hct
  · rw [he]
    refine ⟨?_, ?_, ?_, hct, hcm, him⟩
    · exact fun p hk => Finset.mem_insert_of_mem (hc p hk)
    · exact fun p hk => Finset.mem_insert_of_mem (hi p hk)
    · intro p hmem
      rcases Finset.mem_insert.mp hmem with hp2 | hp2
      · rw [hp2]; exact searchKeyPid_nonneg _ _ _ hp
      · exact hn p hp2
  · rw [he]
    exact ⟨hc, hi, hn, hct, hcm, him⟩

theorem stateInv_init : StateInv initData := by
  refine ⟨?_, ?_, ?_, le_refl _, ?_, ?_⟩
  · intro p hk; rcases hk with ⟨ts, hmem⟩; cases hmem
  · intro p hk; rcases hk with ⟨ts, hmem⟩; cases hmem
  · intro p hp; simp [initData] at hp
  · intro p t hm; rcases hm with ⟨ts, hmem, _⟩; cases hmem
  · intro p t hm; rcases hm with ⟨ts, hmem, _⟩; cases hmem

theorem stateInv_parse (lines : List String) : StateInv (parse_output lines) :=
  foldl_inv StateInv stateInv_processLine lines initData stateInv_init

/-- While no tick marker has been seen, `current_time` is still its initial
value `0`, so every recorded tick is `0`. -/
def PreMarkerInv (st : ParseData) : Prop :=
  st.current_time = 0 ∧
  (∀ p t, dictMem st.cpu p t → t = 0) ∧
  (∀ p t, dictMem st.io p t → t = 0)

theorem preMarkerInv_processLine (st : ParseData) (l : String)
    (hl : searchTime l.toList = none) (h : PreMarkerInv st) :
    PreMarkerInv (processLine st l) := by
  obtain ⟨hct, hcm, him⟩ := h
  rcases processLine_char st l with ⟨t, ht, he⟩ | ⟨pid, hp, he⟩ | ⟨pid, hp, he⟩ | ⟨pid, hp, he⟩ | he
  · rw [hl] at ht; cases ht
  · rw [he]
    refine ⟨hct, ?_, him⟩
    intro p t2 hm
    rcases dictMem_addTick_elim _ _ _ _ _ hm with hm2 | hm2
    · exact hcm p t2 hm2
    · rw [hm2.2]; exact hct
  · rw [he]
    refine ⟨hct, hcm, ?_⟩
    intro p t2 hm
    rcases dictMem_addTick_elim _ _ _ _ _ hm with hm2 | hm2
    · exact him p t2 hm2
    · rw [hm2.2]; exact hct
  · rw [he]; exact ⟨hct, hcm, him⟩
  · rw [he]; exact ⟨hct, hcm, him⟩

theorem preMarkerInv_parse (lines : List String)
    (h : ∀ l ∈ lines, searchTime l.toList = none) :
    PreMarkerInv (parse_output lines) := by
  refine foldl_inv_all PreMarkerInv (fun l => searchTime l.toList = none)
    (fun st l hq hp => preMarkerInv_processLine st l hq hp) lines initData h ?_
  refine ⟨rfl, ?_, ?_⟩
  · intro p t hm; rcases hm with ⟨ts, hmem, _⟩; cases hmem
  · intro p t hm; rcases hm with ⟨ts, hmem, _⟩; cases hmem

theorem foldl_pids_mono (ls : List String) (st : ParseData) :
    st.pids ⊆ (ls.foldl processLine st).pids := by
  induction ls generalizing st with
  | nil => exact Finset.Subset.refl _
  | cons l ls ih => exact Finset.Subset.trans (processLine_pids_mono st l) (ih _)

theorem parse_append (pre rest : List String) :
    parse_output (pre ++ rest) = rest.foldl processLine (parse_output pre) := by
  unfold parse_output
  exact List.foldl_append _ _ _ _

/-- A parse over lines matching none of the four patterns never leaves the
initial state. -/
theorem parse_unrecognized (lines : List String)
    (h : ∀ l ∈ lines,
      searchTime l.toList = none ∧ searchKeyPid runningKey l.toList = none ∧
      searchKeyPid waitingKey l.toList = none ∧ searchKeyPid readyKey l.toList = none) :
    parse_output lines = initData := by
  unfold parse_output
  induction lines with
  | nil => rfl
  | cons l ls ih =>
      rw [List.foldl_cons]
      obtain ⟨h1, h2, h3, h4⟩ := h l (List.mem_cons_self _ _)
      rw [processLine_no_match initData l h1 h2 h3 h4]
      exact ih (fun x hx => h x (List.mem_cons_of_mem _ hx))

theorem parse_ready_empty (lines : List String) :
    (parse_output lines).ready = [] :=
  foldl_ready lines initData

/-- The log of scenario A from the specification. -/
def scenarioA : List String :=
  ["***** TIME: 0 *****", "running pid: 1", "ready pid: 2",
   "***** TIME: 1 *****", "running pid: 2", "waiting pid: 1", "ready pid: 1"]

/-- C1: parsing the scenario-A log yields `cpu = {1:[0], 2:[1]}`,
`io = {1:[1]}`, `max_time = 1` and `pids = {1,2}` as the specification
expects, but the ready map comes back empty instead of `{0:[2], 1:[1]}`:
the block that would populate `data['ready']` is dead code. -/
theorem scenarioA_parse_eval :
    (parse_output scenarioA).cpu = [(1, [0]), (2, [1])] ∧
    (parse_output scenarioA).io = [(1, [1])] ∧
    (parse_output scenarioA).ready = [] ∧
    (parse_output scenarioA).max_time = 1 ∧
    (parse_output scenarioA).pids = {1, 2} := by
  refine ⟨by decide, by decide, by decide, by decide, by decide⟩

/-- C2: for every input, the ready map of the returned trace is empty: the
trailing `if ready_match:` block of the source is only reached on lines where
every pattern failed, so `data['ready']` is never written. -/
theorem ready_map_always_empty (lines : List String) :
    (parse_output lines).ready = [] :=
  parse_ready_empty lines

/-- C3: at the failing input of two identical ready-announcements in one
tick-block, the parser sees both announcements (they reach `current_ready`
and `pids`) yet keeps zero entries in the ready map, not the single entry
the claim demands. -/
theorem duplicate_ready_eval :
    (parse_output ["ready pid: 5", "ready pid: 5"]).ready = [] ∧
    (parse_output ["ready pid: 5", "ready pid: 5"]).pids = {5} ∧
    (parse_output ["ready pid: 5", "ready pid: 5"]).current_ready = [5, 5] := by
  refine ⟨by decide, by decide, by decide⟩

/-- C4: every PID keyed in `cpu` or `io`, or listed in some ready-queue
snapshot, is a member of `pids` in the returned trace. -/
theorem pids_closure (lines : List String) (p : Int)
    (h : keyMem (parse_output lines).cpu p ∨ keyMem (parse_output lines).io p ∨
         (∃ t q, (t, q) ∈ (parse_output lines).ready ∧ p ∈ q)) :
    p ∈ (parse_output lines).pids := by
  obtain ⟨hc, hi, _, _, _, _⟩ := stateInv_parse lines
  rcases h with h | h | h
  · exact hc p h
  · exact hi p h
  · rcases h with ⟨t, q, hmem, _⟩
    rw [parse_ready_empty lines] at hmem
    cases hmem

theorem pids_closure_witness :
    keyMem (parse_output ["running pid: 1"]).cpu 1 ∧
    (1 : Int) ∈ (parse_output ["running pid: 1"]).pids :=
  ⟨⟨[0], by decide⟩,
   pids_closure ["running pid: 1"] 1 (Or.inl ⟨[0], by decide⟩)⟩

/-- C5: a line matched by none of the four patterns leaves the whole parser
state (trace accumulators, `current_time`, and the per-tick temporaries)
unchanged; the parser itself is a total function of the line list. -/
theorem unrecognized_line_noop (st : ParseData) (l : String)
    (h1 : searchTime l.toList = none)
    (h2 : searchKeyPid runningKey l.toList = none)
    (h3 : searchKeyPid waitingKey l.toList = none)
    (h4 : searchKeyPid readyKey l.toList = none) :
    processLine st l = st :=
  processLine_no_match st l h1 h2 h3 h4

theorem unrecognized_line_noop_witness :
    (searchTime "hello world".toList = none ∧
     searchKeyPid runningKey "hello world".toList = none ∧
     searchKeyPid waitingKey "hello world".toList = none ∧
     searchKeyPid readyKey "hello world".toList = none) ∧
    processLine initData "hello world" = initData :=
  ⟨⟨by decide, by decide, by decide, by decide⟩,
   unrecognized_line_noop initData "hello world" (by decide) (by decide) (by decide) (by decide)⟩

/-- C6: the line `running pid: -1` matches no pattern (the regexes only
capture `\d+`), so it changes nothing; and every member of `pids` is
non-negative, so `-1` is never in `pids`. -/
theorem sentinel_running_noop (st : ParseData) (lines : List String) (p : Int)
    (hp : p ∈ (parse_output lines).pids) :
    processLine st "running pid: -1" = st ∧ 0 ≤ p ∧
    (-1 : Int) ∉ (parse_output lines).pids := by
  obtain ⟨_, _, hn, _, _, _⟩ := stateInv_parse lines
  refine ⟨?_, hn p hp, ?_⟩
  · exact processLine_no_match st _ (by decide) (by decide) (by decide) (by decide)
  · intro hmem
    have h2 := hn _ hmem
    omega

theorem sentinel_running_noop_witness :
    (7 : Int) ∈ (parse_output ["running pid: 7"]).pids ∧
    (processLine initData "running pid: -1" = initData ∧ (0 : Int) ≤ 7 ∧
     (-1 : Int) ∉ (parse_output ["running pid: 7"]).pids) :=
  ⟨by decide, sentinel_running_noop initData ["running pid: 7"] 7 (by decide)⟩

/-- C7: events on lines before any tick marker are recorded under tick 0
(`current_time` starts at 0), and those records survive whatever follows. -/
theorem premarker_tick_zero (pre rest : List String) (p : Int) (t : Nat)
    (hm : ∀ l ∈ pre, searchTime l.toList = none)
    (h : dictMem (parse_output pre).cpu p t ∨ dictMem (parse_output pre).io p t) :
    t = 0 ∧
    (dictMem (parse_output (pre ++ rest)).cpu p t ∨
     dictMem (parse_output (pre ++ rest)).io p t) := by
  obtain ⟨hct, hcm, him⟩ := preMarkerInv_parse pre hm
  constructor
  · rcases h with h | h
    · exact hcm p t h
    · exact him p t h
  · rw [parse_append]
    rcases h with h | h
    · exact Or.inl (foldl_dictMem_cpu rest _ p t h)
    · exact Or.inr (foldl_dictMem_io rest _ p t h)

theorem premarker_tick_zero_witness :
    searchTime "running pid: 3".toList = none ∧
    dictMem (parse_output ["running pid: 3"]).cpu 3 0 ∧
    (0 = 0 ∧
     (dictMem (parse_output (["running pid: 3"] ++ ["***** TIME: 5 *****"])).cpu 3 0 ∨
      dictMem (parse_output (["running pid: 3"] ++ ["***** TIME: 5 *****"])).io 3 0)) :=
  ⟨by decide, ⟨[0], by decide, by decide⟩,
   premarker_tick_zero ["running pid: 3"] ["***** TIME: 5 *****"] 3 0 (by decide)
     (Or.inl ⟨[0], by decide, by decide⟩)⟩

/-- C8: a tick-marker line only moves `current_time` and raises `max_time`;
`cpu`, `io`, the ready map, `pids` and `events` are untouched, and a second
block with the same tick number appends into the same accumulators, as shown
by the doubled tick-2 log. -/
theorem time_marker_frame (st : ParseData) (l : String) (t : Nat)
    (h : searchTime l.toList = some t) :
    (processLine st l).cpu = st.cpu ∧ (processLine st l).io = st.io ∧
    (processLine st l).ready = st.ready ∧ (processLine st l).pids = st.pids ∧
    (processLine st l).events = st.events ∧
    (processLine st l).current_time = t ∧
    (processLine st l).max_time = max st.max_time t ∧
    (parse_output ["* TIME: 2 *", "running pid: 1", "* TIME: 2 *", "running pid: 1"]).cpu
      = [(1, [2, 2])] := by
  rw [processLine_time_frame st l t h]
  exact ⟨rfl, rfl, rfl, rfl, rfl, rfl, rfl, by decide⟩

theorem time_marker_frame_witness :
    searchTime "** TIME: 3 **".toList = some 3 ∧
    ((processLine initData "** TIME: 3 **").cpu = initData.cpu ∧
     (processLine initData "** TIME: 3 **").io = initData.io ∧
     (processLine initData "** TIME: 3 **").ready = initData.ready ∧
     (processLine initData "** TIME: 3 **").pids = initData.pids ∧
     (processLine initData "** TIME: 3 **").events = initData.events ∧
     (processLine initData "** TIME: 3 **").current_time = 3 ∧
     (processLine initData "** TIME: 3 **").max_time = max initData.max_time 3 ∧
     (parse_output ["* TIME: 2 *", "running pid: 1", "* TIME: 2 *", "running pid: 1"]).cpu
       = [(1, [2, 2])]) :=
  ⟨by decide, time_marker_frame initData "** TIME: 3 **" 3 (by decide)⟩

/-- C9: for every input, `max_time` equals the maximum of 0 and all tick
numbers announced by marker lines — unconditionally, markers or not — and
it bounds every tick recorded anywhere in the trace. -/
theorem max_time_bound (lines : List String) (p : Int) (t : Nat) :
    (parse_output lines).max_time =
      List.foldl max 0 (lines.filterMap fun l => searchTime l.toList) ∧
    (dictMem (parse_output lines).cpu p t ∨ dictMem (parse_output lines).io p t ∨
       (∃ q, (t, q) ∈ (parse_output lines).ready) →
     t ≤ (parse_output lines).max_time) := by
  obtain ⟨_, _, _, _, hcm, him⟩ := stateInv_parse lines
  constructor
  · exact foldl_max_time lines initData
  · intro h
    rcases h with h | h | h
    · exact hcm p t h
    · exact him p t h
    · rcases h with ⟨q, hmem⟩
      rw [parse_ready_empty lines] at hmem
      cases hmem

theorem max_time_bound_witness :
    dictMem (parse_output ["* TIME: 4 *", "running pid: 1"]).cpu 1 4 ∧
    ((parse_output ["* TIME: 4 *", "running pid: 1"]).max_time =
       List.foldl max 0
         (["* TIME: 4 *", "running pid: 1"].filterMap fun l => searchTime l.toList) ∧
     4 ≤ (parse_output ["* TIME: 4 *", "running pid: 1"]).max_time) ∧
    (parse_output ["***** TIME: 3 *****", "running pid: -1"]).max_time =
      List.foldl max 0
        (["***** TIME: 3 *****", "running pid: -1"].filterMap fun l => searchTime l.toList) :=
  ⟨⟨[4], by decide, by decide⟩,
   ⟨(max_time_bound ["* TIME: 4 *", "running pid: 1"] 1 4).1,
    (max_time_bound ["* TIME: 4 *", "running pid: 1"] 1 4).2
      (Or.inl ⟨[4], by decide, by decide⟩)⟩,
   (max_time_bound ["***** TIME: 3 *****", "running pid: -1"] 0 0).1⟩

/-- C10: an input of lines matching no pattern leaves `pids` empty and
`max_time = 0`, and `draw_gantt` then takes its explicit `if not pids` guard:
it prints the diagnostic and writes no file. -/
theorem empty_trace_short_circuit (lines : List String) (out : String)
    (h : ∀ l ∈ lines,
      searchTime l.toList = none ∧ searchKeyPid runningKey l.toList = none ∧
      searchKeyPid waitingKey l.toList = none ∧ searchKeyPid readyKey l.toList = none) :
    (parse_output lines).pids = ∅ ∧ (parse_output lines).max_time = 0 ∧
    draw_gantt (parse_output lines) out = (["No processes found."], none) := by
  rw [parse_unrecognized lines h]
  refine ⟨rfl, rfl, ?_⟩
  simp [draw_gantt, initData]

theorem empty_trace_short_circuit_witness :
    (searchTime "hello world".toList = none ∧
     searchKeyPid runningKey "hello world".toList = none ∧
     searchKeyPid waitingKey "hello world".toList = none ∧
     searchKeyPid readyKey "hello world".toList = none) ∧
    ((parse_output ["hello world"]).pids = ∅ ∧
     (parse_output ["hello world"]).max_time = 0 ∧
     draw_gantt (parse_output ["hello world"]) "gantt_diagram/schedule.png" =
       (["No processes found."], none)) :=
  ⟨⟨by decide, by decide, by decide, by decide⟩,
   empty_trace_short_circuit ["hello world"] "gantt_diagram/schedule.png"
     (by intro l hl; simp at hl; rw [hl]; exact ⟨by decide, by decide, by decide, by decide⟩)⟩
